import Mathlib

/-!
Verification of the query intelligence and safety pipeline of a
natural-language-to-SQL system.

Python strings are modelled as `List Char` (ASCII fragment).  Pure string
algorithms (`sanitize_query`, the security phase, the pattern matcher,
similarity retrieval, the complexity score) are translated directly from the
source.  The third-party SQL parser (`sqlparse`) is not part of the
repository; the validator is therefore parameterised by an abstract parse
oracle, and every theorem about `validate_query` is proved for all oracles.
-/

/-- Convert a Lean string literal to the `List Char` model of Python strings. -/
def chars (s : String) : List Char := s.toList

/-- Python `str.upper()` on the ASCII fragment. -/
def upperList (l : List Char) : List Char := l.map Char.toUpper

/-- Python `str.lower()` on the ASCII fragment. -/
def lowerList (l : List Char) : List Char := l.map Char.toLower

/-- The characters matched by the regex class `\s` and by `str.split()` /
`str.strip()` (ASCII). -/
def isSpaceChar (c : Char) : Bool :=
  c = ' ' || c = '\t' || c = '\n' || c = '\r' || c = '\x0b' || c = '\x0c'

/-- The characters matched by the regex class `\w` (ASCII). -/
def isWordChar (c : Char) : Bool :=
  ('a' ≤ c && c ≤ 'z') || ('A' ≤ c && c ≤ 'Z') || ('0' ≤ c && c ≤ '9') || c = '_'

/-- The characters matched by the regex class `\d`. -/
def isDigitChar (c : Char) : Bool := '0' ≤ c && c ≤ '9'

/-- Python's substring test `pat in l` (also `str.find` based searches):
`pat` occurs contiguously inside `l`. -/
def hasSub (pat : List Char) : List Char → Bool
  | [] => pat.isPrefixOf []
  | c :: rest => pat.isPrefixOf (c :: rest) || hasSub pat rest

/-- Two given characters occur adjacently in the list. -/
def hasPair (a b : Char) : List Char → Bool
  | x :: y :: rest => (a == x && b == y) || hasPair a b (y :: rest)
  | _ => false

theorem isPrefixOf_eq_true {l₁ l₂ : List Char} :
    l₁.isPrefixOf l₂ = true ↔ l₁ <+: l₂ := List.isPrefixOf_iff_prefix

theorem hasSub_iff {pat l : List Char} : hasSub pat l = true ↔ pat <:+: l := by
  induction l with
  | nil =>
    simp [hasSub, isPrefixOf_eq_true]
  | cons c rest ih =>
    simp only [hasSub, Bool.or_eq_true, isPrefixOf_eq_true, ih, List.infix_cons_iff]

theorem hasSub_of_sub {pat pat' l : List Char} (h : hasSub pat' l = true)
    (hp : pat <:+: pat') : hasSub pat l = true := by
  rw [hasSub_iff] at h ⊢
  exact hp.trans h

theorem hasSub_mono {pat l l' : List Char} (h : hasSub pat l = true)
    (hl : l <:+: l') : hasSub pat l' = true := by
  rw [hasSub_iff] at h ⊢
  exact h.trans hl

theorem hasPair_iff_hasSub {a b : Char} {l : List Char} :
    hasPair a b l = hasSub [a, b] l := by
  induction l with
  | nil => simp [hasPair, hasSub]
  | cons c rest ih =>
    cases rest with
    | nil =>
      simp [hasPair, hasSub, List.isPrefixOf]
    | cons d t =>
      simp only [hasPair, ih, hasSub, List.isPrefixOf, Bool.and_true]

theorem hasPair_eq_false_cons {a b c : Char} {l : List Char}
    (h : hasPair a b (c :: l) = false) : hasPair a b l = false := by
  cases l with
  | nil => simp [hasPair]
  | cons d t =>
    simp only [hasPair, Bool.or_eq_false_iff] at h
    exact h.2

/-! ### `QueryValidator.sanitize_query`

`sanitize_query` applies, in order: removal of `--` line comments
(`re.sub(r'--.*$', '', q, flags=re.MULTILINE)`), removal of `/* ... */`
block comments (`re.sub(r'/\*.*?\*/', '', q, flags=re.DOTALL)`), collapsing
of whitespace runs to single spaces followed by `strip()`, and truncation
before the first `;` (again stripped) when one is present. -/

/-- States of the line-comment machine: scanning normally, having just read a
single `-` (pending), or inside a `--` comment (skipping until the newline,
which itself is kept). -/
inductive LCSt where
  | norm : LCSt
  | dash : LCSt
  | comm : LCSt
deriving DecidableEq

/-- State machine for `re.sub(r'--.*$', '', q, flags=re.MULTILINE)`. -/
def rLCGo : LCSt → List Char → List Char
  | .dash, [] => ['-']
  | _, [] => []
  | .norm, c :: rest => if c = '-' then rLCGo .dash rest else c :: rLCGo .norm rest
  | .dash, c :: rest => if c = '-' then rLCGo .comm rest else '-' :: c :: rLCGo .norm rest
  | .comm, c :: rest => if c = '\n' then '\n' :: rLCGo .norm rest else rLCGo .comm rest

def removeLineComments (l : List Char) : List Char := rLCGo .norm l

/-- Scan for the closing `*/` of a block comment (shortest match, as with the
non-greedy `.*?`); returns the remainder after it, or `none` when the comment
is unclosed. -/
def dropClose : List Char → Option (List Char)
  | '*' :: '/' :: rest => some rest
  | _ :: rest => dropClose rest
  | [] => none

/-- Fuel-indexed body of `re.sub(r'/\*.*?\*/', '', q, flags=re.DOTALL)`:
replace every leftmost-then-shortest `/* ... */` match; an unclosed `/*` has
no match and is kept verbatim. -/
def rBCFuel : Nat → List Char → List Char
  | 0, l => l
  | _ + 1, [] => []
  | fuel + 1, '/' :: '*' :: rest =>
    match dropClose rest with
    | some rest2 => rBCFuel fuel rest2
    | none => '/' :: '*' :: rest
  | fuel + 1, c :: rest => c :: rBCFuel fuel rest

def removeBlockComments (l : List Char) : List Char := rBCFuel l.length l

/-- State machine for `re.sub(r'\s+', ' ', q)`: the flag records whether the
previous character was whitespace (so a run emits a single space). -/
def collapseAux : Bool → List Char → List Char
  | _, [] => []
  | prev, c :: rest =>
    if isSpaceChar c then
      if prev then collapseAux true rest
      else ' ' :: collapseAux true rest
    else c :: collapseAux false rest

def collapseWs (l : List Char) : List Char := collapseAux false l

/-- Remove trailing whitespace. -/
def trimEnd (l : List Char) : List Char := (l.reverse.dropWhile isSpaceChar).reverse

/-- Python `str.strip()`. -/
def pyStrip (l : List Char) : List Char := trimEnd (l.dropWhile isSpaceChar)

/-- `QueryValidator.sanitize_query`. -/
def sanitize_query (sql_query : List Char) : List Char :=
  let s1 := removeLineComments sql_query
  let s2 := removeBlockComments s1
  let s3 := pyStrip (collapseWs s2)
  if s3.contains ';' then pyStrip (s3.takeWhile (fun c => !(c == ';'))) else s3

/-! ### Idempotence analysis of `sanitize_query` -/

theorem hasPair_cons {a b c : Char} {l : List Char}
    (h : hasPair a b l = true) : hasPair a b (c :: l) = true := by
  cases l with
  | nil => simp [hasPair] at h
  | cons d t => simp [hasPair, h]

theorem hasPair_of_inf {a b : Char} {l l' : List Char} (hl : l <:+: l')
    (h : hasPair a b l = true) : hasPair a b l' = true := by
  rw [hasPair_iff_hasSub] at h ⊢
  rw [hasSub_iff] at h ⊢
  exact h.trans hl

theorem hasPair_false_of_inf {a b : Char} {l l' : List Char} (hl : l <:+: l')
    (h : hasPair a b l' = false) : hasPair a b l = false := by
  cases hp : hasPair a b l with
  | false => rfl
  | true => rw [hasPair_of_inf hl hp] at h; cases h


/-- The list is empty or does not begin with the character `b`. -/
def headNotB (b : Char) : List Char → Bool
  | [] => true
  | c :: _ => !(b == c)

/-- The list is empty or does not begin with whitespace. -/
def headNoSp : List Char → Bool
  | [] => true
  | c :: _ => !isSpaceChar c

theorem contains_iff_mem {c : Char} {l : List Char} : l.contains c = true ↔ c ∈ l :=
  List.elem_iff

theorem hasPair_cons_ne {a b c : Char} (l : List Char) (h : (a == c) = false) :
    hasPair a b (c :: l) = hasPair a b l := by
  cases l <;> simp [hasPair, h]

theorem hasPair_cons_headNe {a b c : Char} {l : List Char} (h : headNotB b l = true)
    (hl : hasPair a b l = false) : hasPair a b (c :: l) = false := by
  cases l with
  | nil => simp [hasPair]
  | cons d t =>
    simp only [headNotB, Bool.not_eq_eq_eq_not, Bool.not_true] at h
    simp [hasPair, h, hl]

theorem hasPair_cons_of_pair {a b c d : Char} (t : List Char) (h1 : (a == c) = true)
    (h2 : (b == d) = true) : hasPair a b (c :: d :: t) = true := by
  simp [hasPair, h1, h2]

theorem hasPair_cons_true_iff {a b c : Char} {l : List Char} :
    hasPair a b (c :: l) = true ↔
      ((a == c) = true ∧ ∃ t, l = b :: t) ∨ hasPair a b l = true := by
  cases l with
  | nil => simp [hasPair]
  | cons d t =>
    constructor
    · intro h
      simp only [hasPair, Bool.or_eq_true, Bool.and_eq_true] at h
      rcases h with ⟨h1, h2⟩ | h
      · exact Or.inl ⟨h1, t, by rw [eq_of_beq h2]⟩
      · exact Or.inr h
    · intro h
      rcases h with ⟨h1, t', ht⟩ | h
      · cases ht
        exact hasPair_cons_of_pair t h1 (by simp)
      · simp [hasPair, h]

/-- Line-comment removal never outputs an adjacent `--`. -/
theorem hasDD_rLCGo (st : LCSt) (l : List Char) :
    hasPair '-' '-' (rLCGo st l) = false := by
  induction st, l using rLCGo.induct with
  | case1 => simp [rLCGo, hasPair]
  | case2 st h => cases st with
    | dash => exact absurd rfl h
    | norm => simp [rLCGo, hasPair]
    | comm => simp [rLCGo, hasPair]
  | case3 rest ih => simpa [rLCGo] using ih
  | case4 c rest hc ih =>
    have h1 : (('-' : Char) == c) = false := beq_eq_false_iff_ne.mpr fun h => hc h.symm
    rw [show rLCGo .norm (c :: rest) = c :: rLCGo .norm rest by simp [rLCGo, hc]]
    rw [hasPair_cons_ne _ h1]
    exact ih
  | case5 rest ih => simpa [rLCGo] using ih
  | case6 c rest hc ih =>
    have h1 : (('-' : Char) == c) = false := beq_eq_false_iff_ne.mpr fun h => hc h.symm
    rw [show rLCGo .dash (c :: rest) = '-' :: c :: rLCGo .norm rest by simp [rLCGo, hc]]
    simp only [hasPair, h1, Bool.and_false, Bool.false_or]
    rw [hasPair_cons_ne _ h1]
    exact ih
  | case7 rest ih =>
    rw [show rLCGo .comm ('\n' :: rest) = '\n' :: rLCGo .norm rest by simp [rLCGo]]
    rw [hasPair_cons_ne _ (by decide)]
    exact ih
  | case8 c rest hc ih => simpa [rLCGo, hc] using ih

/-- Running the line-comment machine never creates a new head character:
the output is empty or begins with `-`, `\n`, or the original head. -/
theorem rLCGo_headNotB (b : Char) (hb1 : (b == '-') = false) (hb2 : (b == '\n') = false)
    (st : LCSt) (l : List Char) (h : st = .norm → headNotB b l = true) :
    headNotB b (rLCGo st l) = true := by
  induction st, l using rLCGo.induct with
  | case1 => simp [rLCGo, headNotB, hb1]
  | case2 st hst => cases st with
    | dash => exact absurd rfl hst
    | norm => simp [rLCGo, headNotB]
    | comm => simp [rLCGo, headNotB]
  | case3 rest ih =>
    rw [show rLCGo .norm ('-' :: rest) = rLCGo .dash rest by simp [rLCGo]]
    exact ih (fun hh => absurd hh (by decide))
  | case4 c rest hc ih =>
    rw [show rLCGo .norm (c :: rest) = c :: rLCGo .norm rest by simp [rLCGo, hc]]
    exact h rfl
  | case5 rest ih =>
    rw [show rLCGo .dash ('-' :: rest) = rLCGo .comm rest by simp [rLCGo]]
    exact ih (fun hh => absurd hh (by decide))
  | case6 c rest hc ih =>
    rw [show rLCGo .dash (c :: rest) = '-' :: c :: rLCGo .norm rest by simp [rLCGo, hc]]
    simpa [headNotB] using hb1
  | case7 rest ih =>
    rw [show rLCGo .comm ('\n' :: rest) = '\n' :: rLCGo .norm rest by simp [rLCGo]]
    simpa [headNotB] using hb2
  | case8 c rest hc ih =>
    rw [show rLCGo .comm (c :: rest) = rLCGo .comm rest by simp [rLCGo, hc]]
    exact ih (fun hh => absurd hh (by decide))

theorem headNotB_star_of_hasOC {rest : List Char}
    (h : hasPair '/' '*' ('/' :: rest) = false) : headNotB '*' rest = true := by
  cases rest with
  | nil => rfl
  | cons d t =>
    simp only [hasPair, Bool.or_eq_false_iff, Bool.and_eq_false_iff] at h
    rcases h.1 with h1 | h1
    · simp at h1
    · simp [headNotB, h1]

theorem hasOC_cons_out (c : Char) (rest : List Char)
    (h : hasPair '/' '*' (c :: rest) = false)
    (ih : hasPair '/' '*' (rLCGo .norm rest) = false) :
    hasPair '/' '*' (c :: rLCGo .norm rest) = false := by
  by_cases hc : ('/' : Char) = c
  · subst hc
    exact hasPair_cons_headNe
      (rLCGo_headNotB '*' (by decide) (by decide) .norm rest
        (fun _ => headNotB_star_of_hasOC h)) ih
  · rw [hasPair_cons_ne _ (beq_eq_false_iff_ne.mpr hc)]
    exact ih

/-- Line-comment removal never creates a new `/*` pair. -/
theorem hasOC_rLCGo (st : LCSt) (l : List Char) (h : hasPair '/' '*' l = false) :
    hasPair '/' '*' (rLCGo st l) = false := by
  induction st, l using rLCGo.induct with
  | case1 => simp [rLCGo, hasPair]
  | case2 st hst => cases st with
    | dash => exact absurd rfl hst
    | norm => simp [rLCGo, hasPair]
    | comm => simp [rLCGo, hasPair]
  | case3 rest ih =>
    rw [show rLCGo .norm ('-' :: rest) = rLCGo .dash rest by simp [rLCGo]]
    exact ih (hasPair_eq_false_cons h)
  | case4 c rest hc ih =>
    rw [show rLCGo .norm (c :: rest) = c :: rLCGo .norm rest by simp [rLCGo, hc]]
    exact hasOC_cons_out c rest h (ih (hasPair_eq_false_cons h))
  | case5 rest ih =>
    rw [show rLCGo .dash ('-' :: rest) = rLCGo .comm rest by simp [rLCGo]]
    exact ih (hasPair_eq_false_cons h)
  | case6 c rest hc ih =>
    rw [show rLCGo .dash (c :: rest) = '-' :: c :: rLCGo .norm rest by simp [rLCGo, hc]]
    rw [hasPair_cons_ne _ (by decide)]
    exact hasOC_cons_out c rest h (ih (hasPair_eq_false_cons h))
  | case7 rest ih =>
    rw [show rLCGo .comm ('\n' :: rest) = '\n' :: rLCGo .norm rest by simp [rLCGo]]
    rw [hasPair_cons_ne _ (by decide)]
    exact ih (hasPair_eq_false_cons h)
  | case8 c rest hc ih =>
    rw [show rLCGo .comm (c :: rest) = rLCGo .comm rest by simp [rLCGo, hc]]
    exact ih (hasPair_eq_false_cons h)

theorem headNotB_dash_of_hasDD {rest : List Char}
    (h : hasPair '-' '-' ('-' :: rest) = false) : headNotB '-' rest = true := by
  cases rest with
  | nil => rfl
  | cons d t =>
    simp only [hasPair, Bool.or_eq_false_iff, Bool.and_eq_false_iff] at h
    rcases h.1 with h1 | h1
    · simp at h1
    · simp [headNotB, h1]

/-- On input free of `--`, the line-comment machine is the identity. -/
theorem rLCGo_id (st : LCSt) (l : List Char) :
    (st = .norm → hasPair '-' '-' l = false → rLCGo st l = l) ∧
      (st = .dash → hasPair '-' '-' l = false → headNotB '-' l = true →
        rLCGo st l = '-' :: l) := by
  induction st, l using rLCGo.induct with
  | case1 => exact ⟨fun h => absurd h (by decide), fun _ _ _ => rfl⟩
  | case2 st hst =>
    refine ⟨fun h _ => ?_, fun h => absurd h hst⟩
    subst h; rfl
  | case3 rest ih =>
    refine ⟨fun _ h => ?_, fun h => absurd h (by decide)⟩
    rw [show rLCGo .norm ('-' :: rest) = rLCGo .dash rest by simp [rLCGo]]
    exact ih.2 rfl (hasPair_eq_false_cons h) (headNotB_dash_of_hasDD h)
  | case4 c rest hc ih =>
    refine ⟨fun _ h => ?_, fun h => absurd h (by decide)⟩
    rw [show rLCGo .norm (c :: rest) = c :: rLCGo .norm rest by simp [rLCGo, hc]]
    rw [ih.1 rfl (hasPair_eq_false_cons h)]
  | case5 rest ih =>
    refine ⟨fun h => absurd h (by decide), fun _ _ hh => ?_⟩
    simp [headNotB] at hh
  | case6 c rest hc ih =>
    refine ⟨fun h => absurd h (by decide), fun _ h _ => ?_⟩
    rw [show rLCGo .dash (c :: rest) = '-' :: c :: rLCGo .norm rest by simp [rLCGo, hc]]
    rw [ih.1 rfl (hasPair_eq_false_cons h)]
  | case7 rest ih =>
    exact ⟨fun h => absurd h (by decide), fun h => absurd h (by decide)⟩
  | case8 c rest hc ih =>
    exact ⟨fun h => absurd h (by decide), fun h => absurd h (by decide)⟩

theorem removeLineComments_id {l : List Char} (h : hasPair '-' '-' l = false) :
    removeLineComments l = l := (rLCGo_id .norm l).1 rfl h

/-- On input free of `/*`, block-comment removal is the identity. -/
theorem rBCFuel_id (n : Nat) (l : List Char) (h : hasPair '/' '*' l = false) :
    rBCFuel n l = l := by
  induction n, l using rBCFuel.induct with
  | case1 l => rfl
  | case2 n => rfl
  | case3 fuel rest rest2 hdc ih =>
    simp [hasPair] at h
  | case4 fuel rest hdc =>
    simp [hasPair] at h
  | case5 fuel c rest hne ih =>
    have hstep : rBCFuel (fuel + 1) (c :: rest) = c :: rBCFuel fuel rest := by
      by_cases hc : c = '/'
      · subst hc
        cases rest with
        | nil => rfl
        | cons d t =>
          by_cases hd : d = '*'
          · exact (hne t rfl (by rw [hd])).elim
          · simp [rBCFuel, hd]
      · simp [rBCFuel, hc]
    rw [hstep, ih (hasPair_eq_false_cons h)]

theorem removeBlockComments_id {l : List Char} (h : hasPair '/' '*' l = false) :
    removeBlockComments l = l := rBCFuel_id l.length l h

/-- All whitespace characters in the list are plain spaces. -/
def allSpaceOk (l : List Char) : Bool := l.all (fun c => !isSpaceChar c || c == ' ')

/-- The normal form produced by whitespace collapsing: every whitespace
character is a plain space and no two spaces are adjacent. -/
def allSS (l : List Char) : Bool := allSpaceOk l && !(hasPair ' ' ' ' l)

theorem allSS_tail {c : Char} {l : List Char} (h : allSS (c :: l) = true) :
    allSS l = true := by
  simp only [allSS, allSpaceOk, List.all_cons, Bool.and_eq_true, Bool.not_eq_eq_eq_not,
    Bool.not_true] at h ⊢
  exact ⟨h.1.2, hasPair_eq_false_cons h.2⟩

theorem headNotB_space_of_headNoSp {l : List Char} (h : headNoSp l = true) :
    headNotB ' ' l = true := by
  cases l with
  | nil => rfl
  | cons c t =>
    simp only [headNoSp, Bool.not_eq_eq_eq_not, Bool.not_true] at h
    simp only [headNotB, Bool.not_eq_eq_eq_not, Bool.not_true, beq_eq_false_iff_ne]
    intro hc
    rw [← hc] at h
    simp [isSpaceChar] at h

theorem headNoSp_of_pair_free {l : List Char} (hall : allSpaceOk l = true)
    (h : headNotB ' ' l = true) : headNoSp l = true := by
  cases l with
  | nil => rfl
  | cons c t =>
    simp only [allSpaceOk, List.all_cons, Bool.and_eq_true] at hall
    simp only [headNotB, Bool.not_eq_eq_eq_not, Bool.not_true, beq_eq_false_iff_ne] at h
    simp only [headNoSp, Bool.not_eq_eq_eq_not, Bool.not_true]
    cases hsp : isSpaceChar c with
    | false => rfl
    | true =>
      rcases Bool.or_eq_true _ _ |>.mp hall.1 with h1 | h1
      · rw [hsp] at h1; simp at h1
      · exact absurd (eq_of_beq h1).symm h

/-- The skipping state of the whitespace collapser emits a nonspace first. -/
theorem collapse_true_headNoSp (l : List Char) :
    headNoSp (collapseAux true l) = true := by
  induction l with
  | nil => rfl
  | cons c rest ih =>
    by_cases hsp : isSpaceChar c
    · simpa [collapseAux, hsp] using ih
    · simp [collapseAux, hsp, headNoSp]

/-- The output of whitespace collapsing is in normal form. -/
theorem collapse_allSS (st : Bool) (l : List Char) :
    allSS (collapseAux st l) = true := by
  induction st, l using collapseAux.induct with
  | case1 st => simp [collapseAux, allSS, allSpaceOk, hasPair]
  | case2 c rest hsp ih =>
    simpa [collapseAux, hsp] using ih
  | case3 prev c rest hsp hprev ih =>
    rw [show collapseAux prev (c :: rest) = ' ' :: collapseAux true rest by
      simp [collapseAux, hsp, hprev]]
    simp only [allSS, allSpaceOk, List.all_cons, Bool.and_eq_true, Bool.not_eq_eq_eq_not,
      Bool.not_true] at ih ⊢
    refine ⟨⟨by simp, ih.1⟩, ?_⟩
    exact hasPair_cons_headNe
      (headNotB_space_of_headNoSp (collapse_true_headNoSp rest)) ih.2
  | case4 prev c rest hsp ih =>
    rw [show collapseAux prev (c :: rest) = c :: collapseAux false rest by
      simp [collapseAux, hsp]]
    simp only [allSS, allSpaceOk, List.all_cons, Bool.and_eq_true, Bool.not_eq_eq_eq_not,
      Bool.not_true] at ih ⊢
    refine ⟨⟨by simp [hsp], ih.1⟩, ?_⟩
    refine hasPair_cons_ne _ (beq_eq_false_iff_ne.mpr ?_) |>.trans ih.2
    intro hc
    rw [← hc] at hsp
    simp [isSpaceChar] at hsp

/-- Collapsing whitespace cannot create a new adjacent pair of nonspace
characters. -/
theorem collapse_pair {a b : Char} (ha : isSpaceChar a = false)
    (hb : isSpaceChar b = false) (st : Bool) (l : List Char)
    (h : hasPair a b (collapseAux st l) = true) : hasPair a b l = true := by
  induction st, l using collapseAux.induct with
  | case1 st => simp [collapseAux, hasPair] at h
  | case2 c rest hsp ih =>
    rw [show collapseAux true (c :: rest) = collapseAux true rest by
      simp [collapseAux, hsp]] at h
    exact hasPair_cons (ih h)
  | case3 prev c rest hsp hprev ih =>
    rw [show collapseAux prev (c :: rest) = ' ' :: collapseAux true rest by
      simp [collapseAux, hsp, hprev]] at h
    rcases hasPair_cons_true_iff.mp h with ⟨h1, _, _⟩ | h1
    · rw [eq_of_beq h1] at ha
      simp [isSpaceChar] at ha
    · exact hasPair_cons (ih h1)
  | case4 prev c rest hsp ih =>
    rw [show collapseAux prev (c :: rest) = c :: collapseAux false rest by
      simp [collapseAux, hsp]] at h
    rcases hasPair_cons_true_iff.mp h with ⟨h1, t, ht⟩ | h1
    · cases rest with
      | nil => simp [collapseAux] at ht
      | cons d t' =>
        by_cases hd : isSpaceChar d
        · rw [show collapseAux false (d :: t') = ' ' :: collapseAux true t' by
            simp [collapseAux, hd]] at ht
          have hb' : b = ' ' := by
            injection ht with hx hy
            exact hx.symm
          rw [hb'] at hb
          simp [isSpaceChar] at hb
        · rw [show collapseAux false (d :: t') = d :: collapseAux false t' by
            simp [collapseAux, hd]] at ht
          have hb' : b = d := by
            injection ht with hx hy
            exact hx.symm
          exact hasPair_cons_of_pair t' h1 (by rw [hb']; exact beq_self_eq_true d)
    · exact hasPair_cons (ih h1)

/-- A list in collapsed normal form beginning with a nonspace character is a
fixed point of the whitespace collapser. -/
theorem collapseAux_id (l : List Char) (h : allSS l = true) :
    collapseAux false l = l ∧ (headNoSp l = true → collapseAux true l = l) := by
  induction l with
  | nil => exact ⟨rfl, fun _ => rfl⟩
  | cons c rest ih =>
    have htail := ih (allSS_tail h)
    by_cases hsp : isSpaceChar c
    · have hcsp : c = ' ' := by
        simp only [allSS, allSpaceOk, List.all_cons, Bool.and_eq_true] at h
        rcases Bool.or_eq_true _ _ |>.mp h.1.1 with h1 | h1
        · rw [hsp] at h1; simp at h1
        · exact eq_of_beq h1
      have hrest : headNoSp rest = true := by
        subst hcsp
        simp only [allSS, Bool.and_eq_true, Bool.not_eq_eq_eq_not, Bool.not_true] at h
        refine headNoSp_of_pair_free ?_ ?_
        · simp only [allSS, allSpaceOk, List.all_cons, Bool.and_eq_true] at h
          exact h.1.2
        · cases rest with
          | nil => rfl
          | cons d t =>
            simp only [headNotB, Bool.not_eq_eq_eq_not, Bool.not_true, beq_eq_false_iff_ne]
            intro hd
            have := h.2
            rw [← hd] at this
            simp [hasPair] at this
      constructor
      · rw [show collapseAux false (c :: rest) = ' ' :: collapseAux true rest by
          simp [collapseAux, hsp]]
        rw [htail.2 hrest, hcsp]
      · intro hh
        simp only [headNoSp, Bool.not_eq_eq_eq_not, Bool.not_true] at hh
        rw [hsp] at hh
        cases hh
    · constructor
      · rw [show collapseAux false (c :: rest) = c :: collapseAux false rest by
          simp [collapseAux, hsp]]
        rw [htail.1]
      · intro _
        rw [show collapseAux true (c :: rest) = c :: collapseAux false rest by
          simp [collapseAux, hsp]]
        rw [htail.1]

theorem headNoSp_dropWhile (l : List Char) :
    headNoSp (l.dropWhile isSpaceChar) = true := by
  induction l with
  | nil => rfl
  | cons c rest ih =>
    by_cases hsp : isSpaceChar c
    · simpa [List.dropWhile_cons, hsp] using ih
    · simp [List.dropWhile_cons, hsp, headNoSp]

theorem dropWhile_id_of_headNoSp {l : List Char} (h : headNoSp l = true) :
    l.dropWhile isSpaceChar = l := by
  cases l with
  | nil => rfl
  | cons c rest =>
    simp only [headNoSp, Bool.not_eq_eq_eq_not, Bool.not_true] at h
    simp [List.dropWhile_cons, h]

theorem headNoSp_of_pre {l l' : List Char} (h : headNoSp l = true) (hp : l' <+: l) :
    headNoSp l' = true := by
  cases l' with
  | nil => rfl
  | cons a t =>
    rcases hp with ⟨s, hs⟩
    rw [← hs] at h
    exact h

theorem takeWhile_pre (p : Char → Bool) (l : List Char) : l.takeWhile p <+: l :=
  List.takeWhile_prefix p

theorem trimEnd_pre (l : List Char) : trimEnd l <+: l := by
  have hsuf : l.reverse.dropWhile isSpaceChar <:+ l.reverse := List.dropWhile_suffix _
  have h2 := List.reverse_prefix.mpr hsuf
  rwa [List.reverse_reverse] at h2

theorem trimEnd_idem (l : List Char) : trimEnd (trimEnd l) = trimEnd l := by
  unfold trimEnd
  rw [List.reverse_reverse]
  rw [dropWhile_id_of_headNoSp (headNoSp_dropWhile _)]

theorem pyStrip_idem (l : List Char) : pyStrip (pyStrip l) = pyStrip l := by
  unfold pyStrip
  have h1 : headNoSp (trimEnd (l.dropWhile isSpaceChar)) = true :=
    headNoSp_of_pre (headNoSp_dropWhile l) (trimEnd_pre _)
  rw [dropWhile_id_of_headNoSp h1, trimEnd_idem]

theorem pyStrip_inf (l : List Char) : pyStrip l <:+: l :=
  (trimEnd_pre _).isInfix.trans (List.dropWhile_suffix _).isInfix

theorem allSS_of_infix {l l' : List Char} (h : allSS l = true) (hi : l' <:+: l) :
    allSS l' = true := by
  simp only [allSS, Bool.and_eq_true, Bool.not_eq_eq_eq_not, Bool.not_true] at h ⊢
  constructor
  · refine List.all_eq_true.mpr fun x hx => ?_
    exact List.all_eq_true.mp h.1 x (hi.sublist.subset hx)
  · exact hasPair_false_of_inf hi h.2

/-- Any list satisfying the normal-form invariants established by a first
sanitising pass is a fixed point of `sanitize_query`. -/
theorem sanitize_fix {r : List Char} (h1 : hasPair '-' '-' r = false)
    (h2 : hasPair '/' '*' r = false) (h3 : r.contains ';' = false)
    (h4 : allSS r = true) (h5 : pyStrip r = r) : sanitize_query r = r := by
  simp only [sanitize_query]
  rw [removeLineComments_id h1, removeBlockComments_id h2]
  rw [show collapseWs r = r from (collapseAux_id r h4).1]
  rw [h5, h3]
  simp

theorem pair_false_of_collapse {a b : Char} (ha : isSpaceChar a = false)
    (hb : isSpaceChar b = false) {l : List Char} (h : hasPair a b l = false) :
    hasPair a b (collapseWs l) = false := by
  cases hp : hasPair a b (collapseWs l) with
  | false => rfl
  | true => rw [collapse_pair ha hb false l hp] at h; cases h

/-- After one pass of `sanitize_query` on an input with no `/*`, the result
contains no `--`, no `/*`, no `;`, is whitespace-normal, and is stripped. -/
theorem sanitize_facts (s : List Char) (hOC : hasPair '/' '*' s = false) :
    hasPair '-' '-' (sanitize_query s) = false ∧
      hasPair '/' '*' (sanitize_query s) = false ∧
      (sanitize_query s).contains ';' = false ∧
      allSS (sanitize_query s) = true ∧
      pyStrip (sanitize_query s) = sanitize_query s := by
  have hDDy : hasPair '-' '-' (removeLineComments s) = false := hasDD_rLCGo .norm s
  have hOCy : hasPair '/' '*' (removeLineComments s) = false := hasOC_rLCGo .norm s hOC
  have hrBC : removeBlockComments (removeLineComments s) = removeLineComments s :=
    removeBlockComments_id hOCy
  have hcz : allSS (collapseWs (removeLineComments s)) = true := collapse_allSS false _
  have hDDc : hasPair '-' '-' (collapseWs (removeLineComments s)) = false :=
    pair_false_of_collapse (by decide) (by decide) hDDy
  have hOCc : hasPair '/' '*' (collapseWs (removeLineComments s)) = false :=
    pair_false_of_collapse (by decide) (by decide) hOCy
  by_cases hsem : (pyStrip (collapseWs (removeLineComments s))).contains ';' = true
  · have hr : sanitize_query s =
        pyStrip ((pyStrip (collapseWs (removeLineComments s))).takeWhile
          (fun c => !(c == ';'))) := by
      simp only [sanitize_query]
      rw [hrBC, if_pos hsem]
    have hinf : sanitize_query s <:+: collapseWs (removeLineComments s) := by
      rw [hr]
      exact (pyStrip_inf _).trans
        (((takeWhile_pre _ _).isInfix).trans (pyStrip_inf _))
    refine ⟨hasPair_false_of_inf hinf hDDc, hasPair_false_of_inf hinf hOCc, ?_,
      allSS_of_infix hcz hinf, by rw [hr, pyStrip_idem]⟩
    cases hc : (sanitize_query s).contains ';' with
    | false => rfl
    | true =>
      have hmem : ';' ∈ sanitize_query s := contains_iff_mem.mp hc
      rw [hr] at hmem
      have hmem2 : ';' ∈ (pyStrip (collapseWs (removeLineComments s))).takeWhile
          (fun c => !(c == ';')) := (pyStrip_inf _).sublist.subset hmem
      have := List.mem_takeWhile_imp hmem2
      simp at this
  · have hr : sanitize_query s = pyStrip (collapseWs (removeLineComments s)) := by
      simp only [sanitize_query]
      rw [hrBC, if_neg hsem]
    have hinf : sanitize_query s <:+: collapseWs (removeLineComments s) := by
      rw [hr]; exact pyStrip_inf _
    refine ⟨hasPair_false_of_inf hinf hDDc, hasPair_false_of_inf hinf hOCc, ?_,
      allSS_of_infix hcz hinf, by rw [hr, pyStrip_idem]⟩
    rw [hr]
    exact Bool.not_eq_true _ |>.mp hsem

/-- C3 (counterexample): `sanitize_query` is not idempotent.  On the
six-character input made of a dash, an empty block comment and a dash,
removing the block comment concatenates the two dashes into a new `--`, so
the first pass returns `--` and the second pass returns the empty string. -/
theorem C3_sanitize_not_idempotent :
    sanitize_query (sanitize_query (chars "-/**/-")) ≠
      sanitize_query (chars "-/**/-") := by decide

/-- C3 (amended): for every string that contains no block-comment opener
`/*`, applying `sanitize_query` twice yields the same result as applying it
once.  (The unrestricted claim fails because removing a block comment can
concatenate two `-` characters into a new `--` line comment, or two halves
into a new `/* ... */` block comment, which only the next pass removes.) -/
theorem C3_sanitize_idempotent_no_block_open (s : List Char)
    (h : hasSub (chars "/*") s = false) :
    sanitize_query (sanitize_query s) = sanitize_query s := by
  have hOC : hasPair '/' '*' s = false := by
    have h2 : hasPair '/' '*' s = hasSub ['/', '*'] s := hasPair_iff_hasSub
    rw [h2]; exact h
  obtain ⟨f1, f2, f3, f4, f5⟩ := sanitize_facts s hOC
  exact sanitize_fix f1 f2 f3 f4 f5

/-- C3 (witness): the amended idempotence theorem applied to a concrete
query containing comments-free text, runs of whitespace and a terminator. -/
theorem C3_sanitize_idempotent_witness :
    hasSub (chars "/*") (chars "SELECT  1 ; x -- done") = false ∧
      sanitize_query (sanitize_query (chars "SELECT  1 ; x -- done")) =
        sanitize_query (chars "SELECT  1 ; x -- done") :=
  ⟨by decide, C3_sanitize_idempotent_no_block_open _ (by decide)⟩

/-! ### `QueryValidator.validate_query` and its phases

The validator delegates parsing to the external library `sqlparse`, which is
not part of the repository.  Parsing is therefore abstracted as an oracle
(`SqlOracle`): a parse function producing a list of statements, the
`_is_select_statement` test and the `_extract_tables_and_columns` walk over
a parsed statement.  Every theorem below holds for all oracles. -/

/-- The fragment of Python regular expressions used by
`QueryValidator.forbidden_patterns`: literal strings, `\s+`, `\s*`, `\w+`
and concatenation. -/
inductive RE where
  | str : List Char → RE
  | ws1 : RE
  | ws0 : RE
  | word1 : RE
  | seq : RE → RE → RE

/-- Match one or more characters of the class, then the continuation
(with backtracking). -/
def plusCls (cls : Char → Bool) : List Char → (List Char → Bool) → Bool
  | [], _ => false
  | c :: rest, k => cls c && (k rest || plusCls cls rest k)

/-- Match zero or more characters of the class, then the continuation
(with backtracking). -/
def starCls (cls : Char → Bool) : List Char → (List Char → Bool) → Bool
  | [], k => k []
  | c :: rest, k => k (c :: rest) || (cls c && starCls cls rest k)

/-- Match a regular expression at the start of the list, then the
continuation on the remainder. -/
def matchHere : RE → List Char → (List Char → Bool) → Bool
  | .str s, l, k => s.isPrefixOf l && k (l.drop s.length)
  | .ws1, l, k => plusCls isSpaceChar l k
  | .ws0, l, k => starCls isSpaceChar l k
  | .word1, l, k => plusCls isWordChar l k
  | .seq a b, l, k => matchHere a l (fun l2 => matchHere b l2 k)

/-- Python `re.search`: does the expression match anywhere in the list? -/
def reSearch (r : RE) : List Char → Bool
  | [] => matchHere r [] (fun _ => true)
  | c :: rest => matchHere r (c :: rest) (fun _ => true) || reSearch r rest

/-- The literal string occurs as a mandatory component of the expression. -/
def strOccurs (s : List Char) : RE → Bool
  | .str t => s == t
  | .seq a b => strOccurs s a || strOccurs s b
  | _ => false

/-- `QueryValidator.dangerous_keywords` (in the order of the source literal). -/
def dangerous_keywords : List (List Char) :=
  [chars "DROP", chars "DELETE", chars "TRUNCATE", chars "ALTER", chars "CREATE",
   chars "INSERT", chars "UPDATE", chars "GRANT", chars "REVOKE", chars "EXECUTE",
   chars "EXEC"]

/-- A statement-chaining pattern of the form `;\s*KEYWORD`. -/
def semiChain (kw : String) : RE := .seq (.str (chars ";")) (.seq .ws0 (.str (chars kw)))

/-- `QueryValidator.forbidden_patterns`. -/
def forbidden_patterns : List RE :=
  [.seq (.str (chars "DROP")) (.seq .ws1 (.str (chars "TABLE"))),
   .seq (.str (chars "DELETE")) (.seq .ws1 (.seq (.str (chars "FROM")) (.seq .ws1
     (.seq .word1 (.seq .ws1 (.seq (.str (chars "WHERE")) (.seq .ws1 (.seq
     (.str (chars "1")) (.seq .ws0 (.seq (.str (chars "=")) (.seq .ws0
     (.str (chars "1"))))))))))))),
   .seq (.str (chars "TRUNCATE")) (.seq .ws1 (.str (chars "TABLE"))),
   .seq (.str (chars "ALTER")) (.seq .ws1 (.str (chars "TABLE"))),
   .seq (.str (chars "CREATE")) (.seq .ws1 (.str (chars "TABLE"))),
   .seq (.str (chars "INSERT")) (.seq .ws1 (.str (chars "INTO"))),
   .seq (.str (chars "UPDATE")) (.seq .ws1 (.seq .word1 (.seq .ws1 (.str (chars "SET"))))),
   semiChain "DROP", semiChain "DELETE", semiChain "TRUNCATE", semiChain "ALTER",
   semiChain "CREATE", semiChain "INSERT", semiChain "UPDATE"]

/-- The result of one validation phase: a flag plus the accumulated errors. -/
structure PhaseResult where
  is_valid : Bool
  errors : List String

/-- A `table.column` reference extracted from a statement (`table` is absent
for unqualified identifiers). -/
structure ColumnRef where
  table : Option (List Char)
  column : List Char
deriving DecidableEq

structure ColumnInfo where
  name : List Char
deriving DecidableEq

structure TableInfo where
  columns : List ColumnInfo
deriving DecidableEq

/-- The schema catalog consumed by `validate_query`: a table-name keyed
mapping. -/
structure SchemaInfo where
  tables : List (List Char × TableInfo)
deriving DecidableEq

/-- The abstract interface to `sqlparse` used by the validator. -/
structure SqlOracle (Stmt : Type) where
  parse : List Char → List Stmt
  isSelectStmt : Stmt → Bool
  extractTC : Stmt → List (List Char) × List ColumnRef

/-- The errors accumulated by `QueryValidator._validate_security`. -/
def securityErrors (sql_query : List Char) : List String :=
  let sql_upper := upperList sql_query
  ((dangerous_keywords.filter (fun k => hasSub k sql_upper)).map
      (fun k => "Dangerous keyword detected: " ++ String.mk k))
    ++ ((forbidden_patterns.filter (fun p => reSearch p sql_upper)).map
      (fun _ => "Forbidden pattern detected"))
    ++ (if sql_query.count ';' > 1 then ["Multiple SQL statements not allowed"] else [])
    ++ (if hasSub (chars "--") sql_query || hasSub (chars "/*") sql_query then
      ["SQL comments not allowed for security reasons"] else [])

/-- `QueryValidator._validate_security`: the flag is false exactly when an
error was recorded. -/
def validate_security (sql_query : List Char) : PhaseResult :=
  ⟨(securityErrors sql_query).isEmpty, securityErrors sql_query⟩

/-- `QueryValidator._validate_syntax`: the query must parse to at least one
statement whose first token is `SELECT`. -/
def validate_syntax_phase {Stmt : Type} (P : SqlOracle Stmt)
    (sql_query : List Char) : PhaseResult :=
  match P.parse sql_query with
  | [] => ⟨false, ["Empty or invalid SQL query"]⟩
  | st :: _ =>
    if P.isSelectStmt st then ⟨true, []⟩
    else ⟨false, ["Query must be a SELECT statement"]⟩

structure QueryInfo where
  query_type : String
  tables_used : List (List Char)
  columns_used : List ColumnRef

/-- `QueryValidator._extract_query_info`. -/
def extract_query_info {Stmt : Type} (P : SqlOracle Stmt)
    (sql_query : List Char) : QueryInfo :=
  match P.parse sql_query with
  | [] => ⟨"unknown", [], []⟩
  | st :: _ =>
    ⟨if P.isSelectStmt st then "SELECT" else "unknown",
     (P.extractTC st).1, (P.extractTC st).2⟩

/-- `QueryValidator._validate_against_schema`: errors for unknown tables,
warnings for unknown columns. -/
def validate_against_schema {Stmt : Type} (P : SqlOracle Stmt)
    (sql_query : List Char) (schema_info : SchemaInfo) : PhaseResult × List String :=
  let qi := extract_query_info P sql_query
  let availTables := schema_info.tables.map (fun p => p.1)
  let errs := (qi.tables_used.filter (fun t => !(availTables.contains t))).map
    (fun t => "Table does not exist in schema: " ++ String.mk t)
  let warns := qi.columns_used.filterMap (fun c =>
    match c.table with
    | some tn =>
      if tn ≠ [] then
        match schema_info.tables.find? (fun p => p.1 == tn) with
        | some p =>
          if c.column ≠ [] && !((p.2.columns.map (fun ci => ci.name)).contains c.column)
          then some ("Column not found in table: " ++ String.mk c.column)
          else none
        | none => none
      else none
    | none => none)
  (⟨errs.isEmpty, errs⟩, warns)

/-- Python `str.count` for a substring pattern (non-overlapping, scanning
left to right); fuel-indexed so that it is structurally recursive. -/
def countSubstrAux (pat : List Char) : Nat → List Char → Nat
  | 0, _ => 0
  | _ + 1, [] => 0
  | fuel + 1, c :: rest =>
    if pat.isPrefixOf (c :: rest) then
      1 + countSubstrAux pat fuel ((c :: rest).drop (max pat.length 1))
    else countSubstrAux pat fuel rest

def countSubstr (pat l : List Char) : Nat := countSubstrAux pat l.length l

/-- `QueryValidator._validate_performance`: warnings and suggestions only. -/
def validate_performance (sql_query : List Char) : List String × List String :=
  let sql_upper := upperList sql_query
  let noLimit := !(hasSub (chars "LIMIT") sql_upper)
  let w1 := if hasSub (chars "SELECT *") sql_upper && noLimit then
      ["SELECT * without LIMIT may return large datasets"] else []
  let s1 := if hasSub (chars "SELECT *") sql_upper && noLimit then
      ["Consider adding LIMIT clause or selecting specific columns"] else []
  let s2 := if hasSub (chars "SELECT") sql_upper && !(hasSub (chars "WHERE") sql_upper) then
      ["Consider adding WHERE clause for better performance"] else []
  let w2 := if countSubstr (chars "FROM") sql_upper > 1 &&
      !(hasSub (chars "JOIN") sql_upper) then
      ["Multiple FROM clauses without JOIN may cause cartesian products"] else []
  let s3 := if hasSub (chars "ORDER BY") sql_upper && noLimit then
      ["Consider adding LIMIT with ORDER BY for better performance"] else []
  (w1 ++ w2, s1 ++ s2 ++ s3)

/-- The validation result returned by `QueryValidator.validate_query`. -/
structure ValidationResult where
  is_valid : Bool
  errors : List String
  warnings : List String
  suggestions : List String
  query_type : String
  tables_used : List (List Char)
  columns_used : List ColumnRef

/-- `QueryValidator.validate_query`: run the syntax phase (short-circuiting
on failure), then accumulate security, extraction, optional schema and
performance phases. -/
def validate_query {Stmt : Type} (P : SqlOracle Stmt) (sql_query : List Char)
    (schema_info : Option SchemaInfo) : ValidationResult :=
  let syntax_result := validate_syntax_phase P sql_query
  if !syntax_result.is_valid then
    ⟨false, syntax_result.errors, [], [], "unknown", [], []⟩
  else
    let security_result := validate_security sql_query
    let query_info := extract_query_info P sql_query
    let schema_result := match schema_info with
      | some si => validate_against_schema P sql_query si
      | none => (⟨true, []⟩, [])
    let performance_result := validate_performance sql_query
    ⟨security_result.is_valid && schema_result.1.is_valid,
     security_result.errors ++ schema_result.1.errors,
     schema_result.2 ++ performance_result.1,
     performance_result.2,
     query_info.query_type, query_info.tables_used, query_info.columns_used⟩

theorem isEmpty_append {α : Type} (l₁ l₂ : List α) :
    (l₁ ++ l₂).isEmpty = (l₁.isEmpty && l₂.isEmpty) := by
  cases l₁ <;> simp

theorem filter_ne_nil_of_mem {α : Type} {p : α → Bool} {l : List α} {a : α}
    (ha : a ∈ l) (hp : p a = true) : l.filter p ≠ [] := fun hnil => by
  simpa [hp] using List.filter_eq_nil_iff.mp hnil a ha

theorem validate_syntax_phase_errors {Stmt : Type} (P : SqlOracle Stmt)
    (sql_query : List Char) :
    (validate_syntax_phase P sql_query).is_valid =
      (validate_syntax_phase P sql_query).errors.isEmpty := by
  unfold validate_syntax_phase
  cases P.parse sql_query with
  | nil => rfl
  | cons st rest =>
    by_cases hsel : P.isSelectStmt st <;> simp [hsel]

/-- The short-circuit behaviour of `validate_query` on syntax failures. -/
theorem validate_query_syntax_fail {Stmt : Type} (P : SqlOracle Stmt)
    (sql_query : List Char) (schema_info : Option SchemaInfo)
    (h : (validate_syntax_phase P sql_query).is_valid = false) :
    validate_query P sql_query schema_info =
      ⟨false, (validate_syntax_phase P sql_query).errors, [], [], "unknown", [], []⟩ := by
  unfold validate_query
  simp [h]

/-- The non-short-circuit branch of `validate_query`. -/
theorem validate_query_syntax_ok {Stmt : Type} (P : SqlOracle Stmt)
    (sql_query : List Char) (schema_info : Option SchemaInfo)
    (h : (validate_syntax_phase P sql_query).is_valid = true) :
    validate_query P sql_query schema_info =
      ⟨(validate_security sql_query).is_valid &&
          (match schema_info with
            | some si => (validate_against_schema P sql_query si).1
            | none => ⟨true, []⟩).is_valid,
        (validate_security sql_query).errors ++
          (match schema_info with
            | some si => (validate_against_schema P sql_query si).1
            | none => ⟨true, []⟩).errors,
        (match schema_info with
          | some si => (validate_against_schema P sql_query si).2
          | none => []) ++ (validate_performance sql_query).1,
        (validate_performance sql_query).2,
        (extract_query_info P sql_query).query_type,
        (extract_query_info P sql_query).tables_used,
        (extract_query_info P sql_query).columns_used⟩ := by
  unfold validate_query
  cases schema_info <;> simp [h]

/-- C2: for every SQL string and optional schema catalog, the validation
result is valid exactly when its error list is empty; since validity is a
function of the error list alone, the warnings and suggestions lists never
influence it.  Holds for every parse oracle. -/
theorem C2_is_valid_iff_no_errors {Stmt : Type} (P : SqlOracle Stmt)
    (sql_query : List Char) (schema_info : Option SchemaInfo) :
    (validate_query P sql_query schema_info).is_valid =
      (validate_query P sql_query schema_info).errors.isEmpty := by
  cases hsyn : (validate_syntax_phase P sql_query).is_valid with
  | false =>
    rw [validate_query_syntax_fail P sql_query schema_info hsyn]
    have h2 := validate_syntax_phase_errors P sql_query
    rw [hsyn] at h2
    exact h2
  | true =>
    rw [validate_query_syntax_ok P sql_query schema_info hsyn]
    cases schema_info with
    | none =>
      show ((validate_security sql_query).is_valid && true) =
        ((validate_security sql_query).errors ++ []).isEmpty
      simp only [validate_security, List.append_nil, Bool.and_true]
    | some si =>
      show ((validate_security sql_query).is_valid &&
          (validate_against_schema P sql_query si).1.is_valid) =
        ((validate_security sql_query).errors ++
          (validate_against_schema P sql_query si).1.errors).isEmpty
      simp only [validate_security, validate_against_schema, isEmpty_append]

/-- C6: whenever the syntax phase fails (no parsed statement, or a first
statement that is not a SELECT), `validate_query` returns immediately:
invalid, carrying exactly the phase-1 errors, with empty warnings,
suggestions, tables and columns, and the UNKNOWN query type. -/
theorem C6_syntax_failure_short_circuits {Stmt : Type} (P : SqlOracle Stmt)
    (sql_query : List Char) (schema_info : Option SchemaInfo)
    (h : (validate_syntax_phase P sql_query).is_valid = false) :
    validate_query P sql_query schema_info =
      ⟨false, (validate_syntax_phase P sql_query).errors, [], [], "unknown", [], []⟩ :=
  validate_query_syntax_fail P sql_query schema_info h

/-- A concrete oracle whose parser returns no statement for any input. -/
def nilOracle : SqlOracle Unit :=
  ⟨fun _ => [], fun _ => true, fun _ => ([], [])⟩

/-- C6 (witness): the short-circuit theorem applied to the empty parse. -/
theorem C6_witness :
    (validate_syntax_phase nilOracle (chars "DELETE FROM t")).is_valid = false ∧
      validate_query nilOracle (chars "DELETE FROM t") none =
        ⟨false, (validate_syntax_phase nilOracle (chars "DELETE FROM t")).errors,
          [], [], "unknown", [], []⟩ :=
  ⟨rfl, C6_syntax_failure_short_circuits nilOracle (chars "DELETE FROM t") none rfl⟩

/-- C1: a query whose uppercased text contains `DROP TABLE` is always
rejected with at least one error, for every oracle and schema: if the
syntax phase fails the result carries its error, and otherwise the
security phase records at least the `DROP` dangerous-keyword error. -/
theorem C1_drop_table_always_invalid {Stmt : Type} (P : SqlOracle Stmt)
    (sql_query : List Char) (schema_info : Option SchemaInfo)
    (h : hasSub (chars "DROP TABLE") (upperList sql_query) = true) :
    (validate_query P sql_query schema_info).is_valid = false ∧
      (validate_query P sql_query schema_info).errors ≠ [] := by
  have hdrop : hasSub (chars "DROP") (upperList sql_query) = true :=
    hasSub_of_sub h ⟨[], chars " TABLE", by decide⟩
  have hA : (dangerous_keywords.filter (fun k => hasSub k (upperList sql_query))).map
      (fun k => "Dangerous keyword detected: " ++ String.mk k) ≠ [] := by
    simp only [ne_eq, List.map_eq_nil_iff]
    exact filter_ne_nil_of_mem (by decide) hdrop
  have hsec : securityErrors sql_query ≠ [] := by
    unfold securityErrors
    intro hnil
    exact hA (List.append_eq_nil.mp
      (List.append_eq_nil.mp (List.append_eq_nil.mp hnil).1).1).1
  cases hsyn : (validate_syntax_phase P sql_query).is_valid with
  | false =>
    rw [validate_query_syntax_fail P sql_query schema_info hsyn]
    refine ⟨rfl, ?_⟩
    have h2 := validate_syntax_phase_errors P sql_query
    rw [hsyn] at h2
    intro hnil
    have hnil2 : (validate_syntax_phase P sql_query).errors = [] := hnil
    rw [hnil2] at h2
    simp at h2
  | true =>
    rw [validate_query_syntax_ok P sql_query schema_info hsyn]
    have hval : (validate_security sql_query).is_valid = false := by
      simp [validate_security, List.isEmpty_iff, hsec]
    constructor
    · show ((validate_security sql_query).is_valid && _) = false
      rw [hval]
      exact Bool.false_and _
    · show (validate_security sql_query).errors ++ _ ≠ []
      simp [validate_security, hsec]

/-- C1 (witness): a lower-case `drop table` statement is rejected. -/
theorem C1_witness :
    hasSub (chars "DROP TABLE") (upperList (chars "drop table users")) = true ∧
      (validate_query nilOracle (chars "drop table users") none).is_valid = false ∧
      (validate_query nilOracle (chars "drop table users") none).errors ≠ [] :=
  ⟨by decide, C1_drop_table_always_invalid nilOracle (chars "drop table users") none
    (by decide)⟩

/-! ### The security phase accepts clean SELECT statements (C4) -/

theorem plusCls_suffix {cls : Char → Bool} {l : List Char} {k : List Char → Bool}
    (h : plusCls cls l k = true) : ∃ l', l' <:+ l ∧ k l' = true := by
  induction l with
  | nil => simp [plusCls] at h
  | cons c rest ih =>
    simp only [plusCls, Bool.and_eq_true, Bool.or_eq_true] at h
    rcases h.2 with h2 | h2
    · exact ⟨rest, List.suffix_cons c rest, h2⟩
    · obtain ⟨l', hl, hk⟩ := ih h2
      exact ⟨l', hl.trans (List.suffix_cons c rest), hk⟩

theorem starCls_suffix {cls : Char → Bool} {l : List Char} {k : List Char → Bool}
    (h : starCls cls l k = true) : ∃ l', l' <:+ l ∧ k l' = true := by
  induction l with
  | nil => exact ⟨[], List.nil_suffix, by simpa [starCls] using h⟩
  | cons c rest ih =>
    simp only [starCls, Bool.or_eq_true, Bool.and_eq_true] at h
    rcases h with h2 | h2
    · exact ⟨c :: rest, List.suffix_refl _, h2⟩
    · obtain ⟨l', hl, hk⟩ := ih h2.2
      exact ⟨l', hl.trans (List.suffix_cons c rest), hk⟩

theorem matchHere_suffix (r : RE) : ∀ (l : List Char) (k : List Char → Bool),
    matchHere r l k = true → ∃ l', l' <:+ l ∧ k l' = true := by
  induction r with
  | str s =>
    intro l k h
    simp only [matchHere, Bool.and_eq_true] at h
    exact ⟨l.drop s.length, List.drop_suffix _ _, h.2⟩
  | ws1 => intro l k h; exact plusCls_suffix h
  | ws0 => intro l k h; exact starCls_suffix h
  | word1 => intro l k h; exact plusCls_suffix h
  | seq a b iha ihb =>
    intro l k h
    obtain ⟨l2, hl2, hk2⟩ := iha l _ h
    obtain ⟨l', hl', hk⟩ := ihb l2 k hk2
    exact ⟨l', hl'.trans hl2, hk⟩

theorem matchHere_strOccurs (s : List Char) (r : RE) :
    ∀ (l : List Char) (k : List Char → Bool), strOccurs s r = true →
      matchHere r l k = true → s <:+: l := by
  induction r with
  | str t =>
    intro l k hso h
    simp only [strOccurs, beq_iff_eq] at hso
    simp only [matchHere, Bool.and_eq_true] at h
    subst hso
    exact (isPrefixOf_eq_true.mp h.1).isInfix
  | ws1 => intro l k hso h; simp [strOccurs] at hso
  | ws0 => intro l k hso h; simp [strOccurs] at hso
  | word1 => intro l k hso h; simp [strOccurs] at hso
  | seq a b iha ihb =>
    intro l k hso h
    simp only [strOccurs, Bool.or_eq_true] at hso
    rcases hso with hso | hso
    · exact iha l _ hso h
    · obtain ⟨l2, hl2, hk2⟩ := matchHere_suffix a l _ h
      exact (ihb l2 k hso hk2).trans hl2.isInfix

theorem reSearch_strOccurs (s : List Char) (r : RE) (l : List Char)
    (hso : strOccurs s r = true) (h : reSearch r l = true) : s <:+: l := by
  induction l with
  | nil => exact matchHere_strOccurs s r [] _ hso h
  | cons c rest ih =>
    simp only [reSearch, Bool.or_eq_true] at h
    rcases h with h | h
    · exact matchHere_strOccurs s r (c :: rest) _ hso h
    · exact (ih h).trans ⟨[c], [], by simp⟩

/-- A pattern with a mandatory literal cannot match text avoiding it. -/
theorem reSearch_false (s : List Char) (r : RE) (l : List Char)
    (hso : strOccurs s r = true) (habs : hasSub s l = false) :
    reSearch r l = false := by
  cases hr : reSearch r l with
  | false => rfl
  | true =>
    rw [hasSub_iff.mpr (reSearch_strOccurs s r l hso hr)] at habs
    cases habs

/-- Every forbidden pattern contains a denylisted keyword as a mandatory
literal, so a query free of denylisted keywords matches no pattern. -/
theorem forbidden_patterns_clean (up : List Char)
    (hkw : ∀ k ∈ dangerous_keywords, hasSub k up = false) :
    ∀ p ∈ forbidden_patterns, reSearch p up = false := by
  intro p hp
  simp only [forbidden_patterns, semiChain, List.mem_cons, List.not_mem_nil,
    or_false] at hp
  rcases hp with rfl | rfl | rfl | rfl | rfl | rfl | rfl | rfl | rfl | rfl | rfl | rfl | rfl | rfl
  · exact reSearch_false (chars "DROP") _ up (by decide) (hkw _ (by decide))
  · exact reSearch_false (chars "DELETE") _ up (by decide) (hkw _ (by decide))
  · exact reSearch_false (chars "TRUNCATE") _ up (by decide) (hkw _ (by decide))
  · exact reSearch_false (chars "ALTER") _ up (by decide) (hkw _ (by decide))
  · exact reSearch_false (chars "CREATE") _ up (by decide) (hkw _ (by decide))
  · exact reSearch_false (chars "INSERT") _ up (by decide) (hkw _ (by decide))
  · exact reSearch_false (chars "UPDATE") _ up (by decide) (hkw _ (by decide))
  · exact reSearch_false (chars "DROP") _ up (by decide) (hkw _ (by decide))
  · exact reSearch_false (chars "DELETE") _ up (by decide) (hkw _ (by decide))
  · exact reSearch_false (chars "TRUNCATE") _ up (by decide) (hkw _ (by decide))
  · exact reSearch_false (chars "ALTER") _ up (by decide) (hkw _ (by decide))
  · exact reSearch_false (chars "CREATE") _ up (by decide) (hkw _ (by decide))
  · exact reSearch_false (chars "INSERT") _ up (by decide) (hkw _ (by decide))
  · exact reSearch_false (chars "UPDATE") _ up (by decide) (hkw _ (by decide))

/-- C4: a SQL string that begins with `SELECT`, contains none of the 11
denylisted keywords in its uppercased text, at most one `;`, and no comment
marker passes the security phase with zero errors. -/
theorem C4_clean_select_security (sql_query : List Char)
    (hsel : (chars "SELECT").isPrefixOf sql_query = true)
    (hkw : ∀ k ∈ dangerous_keywords, hasSub k (upperList sql_query) = false)
    (hsemi : sql_query.count ';' ≤ 1)
    (hc1 : hasSub (chars "--") sql_query = false)
    (hc2 : hasSub (chars "/*") sql_query = false) :
    (validate_security sql_query).is_valid = true ∧
      (validate_security sql_query).errors = [] := by
  have herr : securityErrors sql_query = [] := by
    have h1 : List.filter (fun k => hasSub k (upperList sql_query)) dangerous_keywords = [] :=
      List.filter_eq_nil_iff.mpr (fun k hk => by simp [hkw k hk])
    have h2 : List.filter (fun p => reSearch p (upperList sql_query))
        forbidden_patterns = [] :=
      List.filter_eq_nil_iff.mpr
        (fun p hp => by simp [forbidden_patterns_clean _ hkw p hp])
    simp only [securityErrors, h1, h2, List.map_nil, List.nil_append]
    rw [if_neg (by omega), if_neg (by simp [hc1, hc2])]
    simp
  exact ⟨by simp [validate_security, herr], by simp [validate_security, herr]⟩

/-- C4 (witness): a clean single SELECT statement. -/
theorem C4_witness :
    (chars "SELECT").isPrefixOf (chars "SELECT name FROM people WHERE id = 1") = true ∧
      (∀ k ∈ dangerous_keywords,
        hasSub k (upperList (chars "SELECT name FROM people WHERE id = 1")) = false) ∧
      (chars "SELECT name FROM people WHERE id = 1").count ';' ≤ 1 ∧
      (validate_security (chars "SELECT name FROM people WHERE id = 1")).is_valid = true ∧
      (validate_security (chars "SELECT name FROM people WHERE id = 1")).errors = [] := by
  refine ⟨by decide, by decide, by decide, ?_⟩
  exact C4_clean_select_security (chars "SELECT name FROM people WHERE id = 1")
    (by decide) (by decide) (by decide) (by decide) (by decide)

/-! ### `MockNL2SQLGenerator._pattern_match_sql` (the PatternMatcher) -/

/-- The leftmost maximal digit run in the raw query
(`re.search(r'(\d+)', query)`). -/
def firstNumber : List Char → Option (List Char)
  | [] => none
  | c :: rest =>
    if isDigitChar c then some (c :: rest.takeWhile isDigitChar)
    else firstNumber rest

/-- After `top`, one or more spaces followed by one or more digits
(the captured group of `re.search(r'top\s+(\d+)', q)`). -/
def spacesThenDigits (l : List Char) : Option (List Char) :=
  match l with
  | [] => none
  | c :: rest =>
    if isSpaceChar c then
      let ds := (rest.dropWhile isSpaceChar).takeWhile isDigitChar
      if ds = [] then none else some ds
    else none

/-- Scan for the first position where `top\s+(\d+)` matches and return the
captured digits. -/
def topNum : List Char → Option (List Char)
  | 't' :: 'o' :: 'p' :: rest =>
    match spacesThenDigits rest with
    | some ds => some ds
    | none => topNum ('o' :: 'p' :: rest)
  | _ :: rest => topNum rest
  | [] => none

/-- Pattern 1: show-all intent. -/
def pmShowAll (ql : List Char) (tables : List (List Char)) : Option (List Char) :=
  if [chars "show me all", chars "get all", chars "list all",
      chars "display all"].any (fun w => hasSub w ql) then
    match tables.find? (fun t => hasSub t ql) with
    | some t => some (chars "SELECT * FROM " ++ t)
    | none =>
      if chars "users" ∈ tables then some (chars "SELECT * FROM users") else none
  else none

/-- Pattern 2: count intent. -/
def pmCount (ql : List Char) (tables : List (List Char)) : Option (List Char) :=
  if [chars "count", chars "number of", chars "how many",
      chars "total"].any (fun w => hasSub w ql) then
    match tables.find? (fun t => hasSub t ql) with
    | some t => some (chars "SELECT COUNT(*) FROM " ++ t)
    | none =>
      if chars "users" ∈ tables then some (chars "SELECT COUNT(*) FROM users") else none
  else none

/-- The price/cost sub-block of pattern 3. -/
def pmPrice (query ql : List Char) (tables : List (List Char)) : Option (List Char) :=
  if (hasSub (chars "price") ql || hasSub (chars "cost") ql) &&
      chars "products" ∈ tables then
    match firstNumber query with
    | some price =>
      if hasSub (chars "more than") ql || hasSub (chars "greater than") ql then
        some (chars "SELECT * FROM products WHERE price > " ++ price)
      else if hasSub (chars "less than") ql || hasSub (chars "under") ql then
        some (chars "SELECT * FROM products WHERE price < " ++ price)
      else some (chars "SELECT * FROM products WHERE price = " ++ price)
    | none => some (chars "SELECT * FROM products ORDER BY price DESC")
  else none

/-- Pattern 3: conditional find intent (price/cost conditions, then a user
condition). -/
def pmFind (query ql : List Char) (tables : List (List Char)) : Option (List Char) :=
  if [chars "find", chars "get", chars "show",
      chars "display"].any (fun w => hasSub w ql) then
    match pmPrice query ql tables with
    | some r => some r
    | none =>
      if hasSub (chars "user") ql && chars "users" ∈ tables then
        some (chars "SELECT * FROM users")
      else none
  else none

/-- Pattern 4: top-N intent. -/
def pmTopN (ql : List Char) (tables : List (List Char)) : Option (List Char) :=
  if hasSub (chars "top") ql then
    match topNum ql with
    | some lim =>
      if chars "products" ∈ tables &&
          (hasSub (chars "expensive") ql || hasSub (chars "price") ql) then
        some (chars "SELECT * FROM products ORDER BY price DESC LIMIT " ++ lim)
      else if chars "users" ∈ tables then
        some (chars "SELECT * FROM users LIMIT " ++ lim)
      else none
    | none => none
  else none

/-- Pattern 5: orders and customers. -/
def pmOrders (ql : List Char) (tables : List (List Char)) : Option (List Char) :=
  if hasSub (chars "order") ql then
    if chars "orders" ∈ tables then
      if hasSub (chars "customer") ql then
        some (chars "SELECT o.*, u.username FROM orders o JOIN users u ON o.user_id = u.id")
      else some (chars "SELECT * FROM orders")
    else none
  else none

/-- Pattern 6: products and categories. -/
def pmProdCat (ql : List Char) (tables : List (List Char)) : Option (List Char) :=
  if hasSub (chars "product") ql && hasSub (chars "categor") ql then
    if chars "products" ∈ tables && chars "categories" ∈ tables then
      some (chars "SELECT p.name, p.price, c.name as category FROM products p JOIN categories c ON p.category_id = c.id")
    else none
  else none

/-- The default fallback of the cascade. -/
def pmFallback (tables : List (List Char)) : List Char :=
  if chars "users" ∈ tables then chars "SELECT * FROM users LIMIT 10"
  else
    match tables with
    | t :: _ => chars "SELECT * FROM " ++ t ++ chars " LIMIT 10"
    | [] => chars "SELECT 1"

/-- `MockNL2SQLGenerator._pattern_match_sql`: the fixed-priority rule
cascade (the schema argument is accepted and ignored, as in the source). -/
def pattern_match_sql (query : List Char) (tables : List (List Char))
    (schema : Option SchemaInfo) : List Char :=
  let ql := lowerList query
  match pmShowAll ql tables with
  | some r => r
  | none =>
  match pmCount ql tables with
  | some r => r
  | none =>
  match pmFind query ql tables with
  | some r => r
  | none =>
  match pmTopN ql tables with
  | some r => r
  | none =>
  match pmOrders ql tables with
  | some r => r
  | none =>
  match pmProdCat ql tables with
  | some r => r
  | none => pmFallback tables

theorem selPre_append (s t : List Char)
    (h : (chars "SELECT").isPrefixOf s = true) :
    (chars "SELECT").isPrefixOf (s ++ t) = true := by
  rw [isPrefixOf_eq_true] at h ⊢
  exact h.trans (List.prefix_append s t)

theorem pmShowAll_sel {ql : List Char} {tables : List (List Char)} {r : List Char}
    (h : pmShowAll ql tables = some r) : (chars "SELECT").isPrefixOf r = true := by
  unfold pmShowAll at h
  split at h
  · split at h
    · injection h with h2; subst h2; exact selPre_append _ _ (by decide)
    · split at h
      · injection h with h2; subst h2; decide
      · cases h
  · cases h

theorem pmCount_sel {ql : List Char} {tables : List (List Char)} {r : List Char}
    (h : pmCount ql tables = some r) : (chars "SELECT").isPrefixOf r = true := by
  unfold pmCount at h
  split at h
  · split at h
    · injection h with h2; subst h2; exact selPre_append _ _ (by decide)
    · split at h
      · injection h with h2; subst h2; decide
      · cases h
  · cases h

theorem pmPrice_sel {query ql : List Char} {tables : List (List Char)} {r : List Char}
    (h : pmPrice query ql tables = some r) : (chars "SELECT").isPrefixOf r = true := by
  unfold pmPrice at h
  split at h
  · split at h
    · split at h
      · injection h with h2; subst h2; exact selPre_append _ _ (by decide)
      · split at h
        · injection h with h2; subst h2; exact selPre_append _ _ (by decide)
        · injection h with h2; subst h2; exact selPre_append _ _ (by decide)
    · injection h with h2; subst h2; decide
  · cases h

theorem pmFind_sel {query ql : List Char} {tables : List (List Char)} {r : List Char}
    (h : pmFind query ql tables = some r) : (chars "SELECT").isPrefixOf r = true := by
  unfold pmFind at h
  split at h
  · split at h
    · next r2 heq =>
      injection h with h2
      subst h2
      exact pmPrice_sel heq
    · split at h
      · injection h with h2; subst h2; decide
      · cases h
  · cases h

theorem pmTopN_sel {ql : List Char} {tables : List (List Char)} {r : List Char}
    (h : pmTopN ql tables = some r) : (chars "SELECT").isPrefixOf r = true := by
  unfold pmTopN at h
  split at h
  · split at h
    · split at h
      · injection h with h2; subst h2; exact selPre_append _ _ (by decide)
      · split at h
        · injection h with h2; subst h2; exact selPre_append _ _ (by decide)
        · cases h
    · cases h
  · cases h

theorem pmOrders_sel {ql : List Char} {tables : List (List Char)} {r : List Char}
    (h : pmOrders ql tables = some r) : (chars "SELECT").isPrefixOf r = true := by
  unfold pmOrders at h
  split at h
  · split at h
    · split at h
      · injection h with h2; subst h2; decide
      · injection h with h2; subst h2; decide
    · cases h
  · cases h

theorem pmProdCat_sel {ql : List Char} {tables : List (List Char)} {r : List Char}
    (h : pmProdCat ql tables = some r) : (chars "SELECT").isPrefixOf r = true := by
  unfold pmProdCat at h
  split at h
  · split at h
    · injection h with h2; subst h2; decide
    · cases h
  · cases h

theorem pmFallback_sel (tables : List (List Char)) :
    (chars "SELECT").isPrefixOf (pmFallback tables) = true := by
  unfold pmFallback
  split
  · decide
  · split
    · exact selPre_append _ _ (selPre_append _ _ (by decide))
    · decide

theorem pmShowAll_nil (ql : List Char) : pmShowAll ql [] = none := by
  simp [pmShowAll]

theorem pmCount_nil (ql : List Char) : pmCount ql [] = none := by
  simp [pmCount]

theorem pmPrice_nil (query ql : List Char) : pmPrice query ql [] = none := by
  simp [pmPrice]

theorem pmFind_nil (query ql : List Char) : pmFind query ql [] = none := by
  simp [pmFind, pmPrice_nil]

theorem pmTopN_nil (ql : List Char) : pmTopN ql [] = none := by
  unfold pmTopN
  cases topNum ql <;> simp

theorem pmOrders_nil (ql : List Char) : pmOrders ql [] = none := by
  simp [pmOrders]

theorem pmProdCat_nil (ql : List Char) : pmProdCat ql [] = none := by
  simp [pmProdCat]

/-- C5: the pattern matcher always returns a non-empty string beginning
with `SELECT`, and on an empty table list it returns the degenerate
constant select `SELECT 1`. -/
theorem C5_pattern_matcher_total (query : List Char) (tables : List (List Char))
    (schema : Option SchemaInfo) :
    pattern_match_sql query tables schema ≠ [] ∧
      (chars "SELECT").isPrefixOf (pattern_match_sql query tables schema) = true ∧
      (tables = [] → pattern_match_sql query tables schema = chars "SELECT 1") := by
  have hsel : (chars "SELECT").isPrefixOf (pattern_match_sql query tables schema) = true := by
    simp only [pattern_match_sql]
    cases h1 : pmShowAll (lowerList query) tables with
    | some r => exact pmShowAll_sel h1
    | none =>
      cases h2 : pmCount (lowerList query) tables with
      | some r => exact pmCount_sel h2
      | none =>
        cases h3 : pmFind query (lowerList query) tables with
        | some r => exact pmFind_sel h3
        | none =>
          cases h4 : pmTopN (lowerList query) tables with
          | some r => exact pmTopN_sel h4
          | none =>
            cases h5 : pmOrders (lowerList query) tables with
            | some r => exact pmOrders_sel h5
            | none =>
              cases h6 : pmProdCat (lowerList query) tables with
              | some r => exact pmProdCat_sel h6
              | none => exact pmFallback_sel tables
  refine ⟨?_, hsel, ?_⟩
  · intro hnil
    rw [hnil] at hsel
    exact absurd hsel (by decide)
  · intro ht
    subst ht
    simp only [pattern_match_sql, pmShowAll_nil, pmCount_nil, pmFind_nil, pmTopN_nil,
      pmOrders_nil, pmProdCat_nil]
    rfl

/-- C5 (witness): a query matching no pattern over no tables yields the
degenerate constant select. -/
theorem C5_witness :
    pattern_match_sql (chars "hello") [] none ≠ [] ∧
      (chars "SELECT").isPrefixOf (pattern_match_sql (chars "hello") [] none) = true ∧
      pattern_match_sql (chars "hello") [] none = chars "SELECT 1" := by
  obtain ⟨h1, h2, h3⟩ := C5_pattern_matcher_total (chars "hello") [] none
  exact ⟨h1, h2, h3 rfl⟩

/-! ### `QueryValidator.get_query_complexity_score` (C9) -/

def hasJoinKw (sql_query : List Char) : Bool :=
  hasSub (chars "JOIN") (upperList sql_query)

def hasGroupBy (sql_query : List Char) : Bool :=
  hasSub (chars "GROUP BY") (upperList sql_query)

def hasHaving (sql_query : List Char) : Bool :=
  hasSub (chars "HAVING") (upperList sql_query)

def hasOrderBy (sql_query : List Char) : Bool :=
  hasSub (chars "ORDER BY") (upperList sql_query)

def hasLimitKw (sql_query : List Char) : Bool :=
  hasSub (chars "LIMIT") (upperList sql_query)

def hasWhereKw (sql_query : List Char) : Bool :=
  hasSub (chars "WHERE") (upperList sql_query)

def hasDistinct (sql_query : List Char) : Bool :=
  hasSub (chars "DISTINCT") (upperList sql_query)

def hasUnion (sql_query : List Char) : Bool :=
  hasSub (chars "UNION") (upperList sql_query)

/-- The ninth increment of the source fires on the literal text `SUBQUERY`
or on any parenthesis. -/
def hasSubqueryParen (sql_query : List Char) : Bool :=
  hasSub (chars "SUBQUERY") (upperList sql_query) || '(' ∈ upperList sql_query

/-- `QueryValidator.get_query_complexity_score`: start at 1, add the nine
weighted increments, clamp at 10. -/
def get_query_complexity_score (sql_query : List Char) : Nat :=
  min (1 + (if hasJoinKw sql_query then 2 else 0)
    + (if hasGroupBy sql_query then 1 else 0)
    + (if hasHaving sql_query then 1 else 0)
    + (if hasOrderBy sql_query then 1 else 0)
    + (if hasLimitKw sql_query then 1 else 0)
    + (if hasWhereKw sql_query then 1 else 0)
    + (if hasDistinct sql_query then 1 else 0)
    + (if hasUnion sql_query then 2 else 0)
    + (if hasSubqueryParen sql_query then 2 else 0)) 10

/-- Modelled from the claim refinement: the nine structural indicators the
claim names, with a plain parenthesis as the ninth (no `SUBQUERY` text). -/
def claimIndicators (sql_query : List Char) : List Bool :=
  [hasJoinKw sql_query, hasGroupBy sql_query, hasHaving sql_query,
   hasOrderBy sql_query, hasLimitKw sql_query, hasWhereKw sql_query,
   hasDistinct sql_query, hasUnion sql_query,
   decide ('(' ∈ upperList sql_query)]

/-- C9 (counterexample): the strings `SUBQUERY` and the empty string trigger
exactly the same claim-listed indicators (none), yet their scores differ,
because the code also awards two points for the literal text `SUBQUERY`.
Hence the claimed subset-monotonicity over the nine listed indicators
fails. -/
theorem C9_subquery_counterexample :
    claimIndicators (chars "SUBQUERY") = claimIndicators (chars "") ∧
      get_query_complexity_score (chars "") <
        get_query_complexity_score (chars "SUBQUERY") := by
  constructor
  · decide
  · decide

theorem ite_weight_mono {b1 b2 : Bool} (w : Nat) (h : b1 = true → b2 = true) :
    (if b1 then w else 0) ≤ (if b2 then w else 0) := by
  cases b1 with
  | false => simp
  | true => rw [h rfl]

/-- C9 (amended): the score always lies in `[1, 10]`, and it is monotone in
the nine conditions the code actually tests (with the ninth triggered by a
parenthesis or by the literal text `SUBQUERY`); in particular appending
text can only add conditions, never remove them. -/
theorem C9_complexity_range_mono (s₁ s₂ : List Char) :
    (1 ≤ get_query_complexity_score s₁ ∧ get_query_complexity_score s₁ ≤ 10) ∧
      (((hasJoinKw s₁ = true → hasJoinKw s₂ = true) ∧
        (hasGroupBy s₁ = true → hasGroupBy s₂ = true) ∧
        (hasHaving s₁ = true → hasHaving s₂ = true) ∧
        (hasOrderBy s₁ = true → hasOrderBy s₂ = true) ∧
        (hasLimitKw s₁ = true → hasLimitKw s₂ = true) ∧
        (hasWhereKw s₁ = true → hasWhereKw s₂ = true) ∧
        (hasDistinct s₁ = true → hasDistinct s₂ = true) ∧
        (hasUnion s₁ = true → hasUnion s₂ = true) ∧
        (hasSubqueryParen s₁ = true → hasSubqueryParen s₂ = true)) →
        get_query_complexity_score s₁ ≤ get_query_complexity_score s₂) := by
  refine ⟨⟨?_, ?_⟩, ?_⟩
  · unfold get_query_complexity_score
    exact le_min (by omega) (by norm_num)
  · unfold get_query_complexity_score
    exact Nat.min_le_right _ _
  · intro h
    obtain ⟨h1, h2, h3, h4, h5, h6, h7, h8, h9⟩ := h
    unfold get_query_complexity_score
    refine min_le_min ?_ le_rfl
    exact Nat.add_le_add (Nat.add_le_add (Nat.add_le_add (Nat.add_le_add
      (Nat.add_le_add (Nat.add_le_add (Nat.add_le_add (Nat.add_le_add
        (Nat.add_le_add le_rfl (ite_weight_mono 2 h1)) (ite_weight_mono 1 h2))
        (ite_weight_mono 1 h3)) (ite_weight_mono 1 h4)) (ite_weight_mono 1 h5))
        (ite_weight_mono 1 h6)) (ite_weight_mono 1 h7)) (ite_weight_mono 2 h8))
      (ite_weight_mono 2 h9)

/-- C9 (witness): range at a concrete query, and monotonicity from the empty
string to a query containing `JOIN`. -/
theorem C9_witness :
    (1 ≤ get_query_complexity_score (chars "") ∧
      get_query_complexity_score (chars "") ≤ 10) ∧
      get_query_complexity_score (chars "") ≤
        get_query_complexity_score (chars "SELECT A JOIN B") := by
  obtain ⟨hr, hm⟩ := C9_complexity_range_mono (chars "") (chars "SELECT A JOIN B")
  refine ⟨hr, hm ?_⟩
  refine ⟨?_, ?_, ?_, ?_, ?_, ?_, ?_, ?_, ?_⟩ <;> decide

/-! ### `FewShotLearning` (C7, C8, C10) -/

/-- A stored few-shot example (`natural_language`/`sql` pair with tags). -/
structure Example where
  natural_language : List Char
  sql : List Char
  category : List Char
  difficulty : List Char
deriving DecidableEq

/-- `FewShotLearning.add_example`: append without any validation. -/
def add_example (examples : List Example)
    (natural_language sql category difficulty : List Char) : List Example :=
  examples ++ [⟨natural_language, sql, category, difficulty⟩]

/-- Python `str.split()` with no separator: split on whitespace runs and
drop empty words (the accumulator holds the current word reversed). -/
def pySplitAux : List Char → List Char → List (List Char)
  | [], acc => if acc = [] then [] else [acc.reverse]
  | c :: rest, acc =>
    if isSpaceChar c then
      if acc = [] then pySplitAux rest [] else acc.reverse :: pySplitAux rest []
    else pySplitAux rest (c :: acc)

def pySplit (l : List Char) : List (List Char) := pySplitAux l []

/-- `len(set(a.split()) & set(b.split()))`: the number of distinct words
common to both texts. -/
def simCommon (query_lower example_text : List Char) : Nat :=
  (((pySplit query_lower).eraseDups).filter
    (fun w => (pySplit example_text).contains w)).length

/-- `max(len(a.split()), len(b.split()))`: the larger of the two word-list
lengths (duplicates counted). -/
def similarityDen (query_lower example_text : List Char) : Nat :=
  max (pySplit query_lower).length (pySplit example_text).length

/-- The similarity score computed inside `get_similar_examples` (exact
rational arithmetic in place of Python floats). -/
def similarity_score (query nl_text : List Char) : ℚ :=
  (simCommon (lowerList query) (lowerList nl_text) : ℚ) /
    (similarityDen (lowerList query) (lowerList nl_text) : ℚ)

/-- The scored-and-thresholded list built by the loop of
`get_similar_examples`; `none` models the `ZeroDivisionError` raised when
some denominator is zero. -/
def buildSims (query : List Char) : List Example → Option (List (ℚ × Example))
  | [] => some []
  | ex :: rest =>
    if similarityDen (lowerList query) (lowerList ex.natural_language) = 0 then none
    else
      match buildSims query rest with
      | none => none
      | some t =>
        some (if 1/10 < similarity_score query ex.natural_language then
          (similarity_score query ex.natural_language, ex) :: t else t)

/-- Stable insertion for the descending sort: a new element goes before the
first element whose score it strictly exceeds, i.e. after every existing
element with an equal or larger score. -/
def insertDesc (x : ℚ × Example) : List (ℚ × Example) → List (ℚ × Example)
  | [] => [x]
  | y :: rest => if y.1 ≤ x.1 then x :: y :: rest else y :: insertDesc x rest

/-- The stable descending sort by score
(`similarities.sort(key=lambda x: x[0], reverse=True)`). -/
def sortDesc : List (ℚ × Example) → List (ℚ × Example)
  | [] => []
  | x :: rest => insertDesc x (sortDesc rest)

/-- `FewShotLearning.get_similar_examples`. -/
def get_similar_examples (query : List Char) (limit : Nat)
    (examples : List Example) : Option (List Example) :=
  match buildSims query examples with
  | none => none
  | some sims => some (((sortDesc sims).take limit).map (fun p => p.2))

/-- `FewShotLearning.validate_example`. -/
def validate_example (natural_language sql : List Char) : Bool :=
  if natural_language = [] || sql = [] then false
  else if !([chars "SELECT", chars "FROM"].any
      (fun keyword => hasSub keyword (upperList sql))) then false
  else true

/-- Modelled from the claim refinement: the similarity score as the claim
words it, dividing by the larger of the two word-SET sizes. -/
def claimSimilarity (query nl_text : List Char) : ℚ :=
  (simCommon (lowerList query) (lowerList nl_text) : ℚ) /
    (max ((pySplit (lowerList query)).eraseDups).length
      ((pySplit (lowerList nl_text)).eraseDups).length : ℚ)

theorem insertDesc_perm (x : ℚ × Example) (l : List (ℚ × Example)) :
    List.Perm (insertDesc x l) (x :: l) := by
  induction l with
  | nil => exact List.Perm.refl _
  | cons y rest ih =>
    unfold insertDesc
    split
    · exact List.Perm.refl _
    · exact (ih.cons y).trans (List.Perm.swap x y rest)

theorem sortDesc_perm (l : List (ℚ × Example)) : List.Perm (sortDesc l) l := by
  induction l with
  | nil => exact List.Perm.refl _
  | cons x rest ih => exact (insertDesc_perm x (sortDesc rest)).trans (ih.cons x)

theorem insertDesc_sorted (x : ℚ × Example) (l : List (ℚ × Example))
    (h : l.Pairwise (fun a b => b.1 ≤ a.1)) :
    (insertDesc x l).Pairwise (fun a b => b.1 ≤ a.1) := by
  induction l with
  | nil => simp [insertDesc]
  | cons y rest ih =>
    obtain ⟨hy, hrest⟩ := List.pairwise_cons.mp h
    unfold insertDesc
    split
    · next hxy =>
      refine List.pairwise_cons.mpr ⟨?_, h⟩
      intro b hb
      rcases List.mem_cons.mp hb with rfl | hb2
      · exact hxy
      · exact (hy b hb2).trans hxy
    · next hxy =>
      refine List.pairwise_cons.mpr ⟨?_, ih hrest⟩
      intro b hb
      rcases List.mem_cons.mp ((insertDesc_perm x rest).mem_iff.mp hb) with rfl | hb2
      · exact (lt_of_not_le hxy).le
      · exact hy b hb2

theorem sortDesc_sorted (l : List (ℚ × Example)) :
    (sortDesc l).Pairwise (fun a b => b.1 ≤ a.1) := by
  induction l with
  | nil => simp [sortDesc]
  | cons x rest ih => exact insertDesc_sorted x (sortDesc rest) ih

theorem insertDesc_filter (x : ℚ × Example) (l : List (ℚ × Example)) (s : ℚ) :
    (insertDesc x l).filter (fun p => decide (p.1 = s)) =
      if x.1 = s then x :: l.filter (fun p => decide (p.1 = s))
      else l.filter (fun p => decide (p.1 = s)) := by
  induction l with
  | nil =>
    by_cases hxs : x.1 = s <;> simp [insertDesc, List.filter, hxs]
  | cons y rest ih =>
    unfold insertDesc
    split
    · next hxy =>
      by_cases hxs : x.1 = s <;> simp [List.filter_cons, hxs]
    · next hxy =>
      rw [List.filter_cons, ih]
      by_cases hys : y.1 = s
      · have hxs : ¬ x.1 = s := by
          intro hxs
          exact hxy (by rw [hxs, hys])
        simp [hys, hxs, List.filter_cons]
      · by_cases hxs : x.1 = s <;> simp [hys, hxs, List.filter_cons]

theorem sortDesc_filter (l : List (ℚ × Example)) (s : ℚ) :
    (sortDesc l).filter (fun p => decide (p.1 = s)) =
      l.filter (fun p => decide (p.1 = s)) := by
  induction l with
  | nil => rfl
  | cons x rest ih =>
    unfold sortDesc
    rw [insertDesc_filter, List.filter_cons, ih]
    by_cases hxs : x.1 = s <;> simp [hxs]

/-- The scored list retained by the loop: every example paired with its
score, keeping those strictly above the 0.1 threshold, in store order. -/
def simsOf (query : List Char) (examples : List Example) : List (ℚ × Example) :=
  (examples.map (fun e => (similarity_score query e.natural_language, e))).filter
    (fun p => decide (1/10 < p.1))

theorem buildSims_eq (query : List Char) (examples : List Example)
    (h : ∀ e ∈ examples,
      similarityDen (lowerList query) (lowerList e.natural_language) ≠ 0) :
    buildSims query examples = some (simsOf query examples) := by
  unfold simsOf
  induction examples with
  | nil => rfl
  | cons ex rest ih =>
    unfold buildSims
    rw [if_neg (h ex (List.mem_cons_self ex rest))]
    rw [ih (fun e he => h e (List.mem_cons_of_mem ex he))]
    simp only [List.map_cons, List.filter_cons]
    by_cases hth : 1/10 < similarity_score query ex.natural_language <;> simp [hth]

/-- C7 (amended): provided no stored example makes the similarity
denominator zero, `get_similar_examples` returns a list `r` with:
exactly the examples whose score (computed with word-LIST lengths,
duplicates counted, in the denominator) strictly exceeds 1/10, cut to the
first `limit` of them; scores non-increasing along `r`; and, for every
score value, the examples carrying it appearing as a prefix of their
store-order filtering (stability). -/
theorem C7_similar_examples_spec (query : List Char) (limit : Nat)
    (examples : List Example)
    (hden : ∀ e ∈ examples,
      similarityDen (lowerList query) (lowerList e.natural_language) ≠ 0) :
    ∃ r, get_similar_examples query limit examples = some r ∧
      r.length = min limit (examples.countP
        (fun e => decide (1/10 < similarity_score query e.natural_language))) ∧
      (∀ e ∈ r, 1/10 < similarity_score query e.natural_language) ∧
      (r.map (fun e => similarity_score query e.natural_language)).Pairwise
        (fun a b => b ≤ a) ∧
      (∀ s : ℚ, 1/10 < s →
        r.filter (fun e => decide (similarity_score query e.natural_language = s)) <+:
          examples.filter
            (fun e => decide (similarity_score query e.natural_language = s))) := by
  have hb := buildSims_eq query examples hden
  have hmm : ∀ p ∈ simsOf query examples,
      p.1 = similarity_score query p.2.natural_language := by
    intro p hp
    obtain ⟨hmem, -⟩ := List.mem_filter.mp hp
    obtain ⟨e, -, rfl⟩ := List.mem_map.mp hmem
    rfl
  have hlen : (simsOf query examples).length = examples.countP
      (fun e => decide (1/10 < similarity_score query e.natural_language)) := by
    unfold simsOf
    rw [← List.countP_eq_length_filter]
    rw [List.countP_map]
    rfl
  have htakemem : ∀ p ∈ (sortDesc (simsOf query examples)).take limit,
      p ∈ simsOf query examples :=
    fun p hp => (sortDesc_perm _).mem_iff.mp (List.take_subset _ _ hp)
  refine ⟨((sortDesc (simsOf query examples)).take limit).map (fun p => p.2),
    ?_, ?_, ?_, ?_, ?_⟩
  · unfold get_similar_examples
    rw [hb]
  · rw [List.length_map, List.length_take, (sortDesc_perm _).length_eq, hlen]
  · intro e he
    obtain ⟨p, hp, rfl⟩ := List.mem_map.mp he
    have hps := htakemem p hp
    have hpass := of_decide_eq_true (List.mem_filter.mp hps).2
    rwa [hmm p hps] at hpass
  · rw [List.map_map, List.pairwise_map]
    refine ((sortDesc_sorted _).sublist (List.take_sublist _ _)).imp_of_mem ?_
    intro a b ha hb2 hr
    show similarity_score query b.2.natural_language ≤
      similarity_score query a.2.natural_language
    rw [← hmm a (htakemem a ha), ← hmm b (htakemem b hb2)]
    exact hr
  · intro s hs
    have hstep1 : (((sortDesc (simsOf query examples)).take limit).map
        (fun p => p.2)).filter
        (fun e => decide (similarity_score query e.natural_language = s)) =
        (((sortDesc (simsOf query examples)).take limit).filter
          (fun p => decide (p.1 = s))).map (fun p => p.2) := by
      rw [List.filter_map]
      congr 1
      refine List.filter_congr ?_
      intro p hp
      show decide (similarity_score query p.2.natural_language = s) = decide (p.1 = s)
      rw [hmm p (htakemem p hp)]
    have hstep2 : ((sortDesc (simsOf query examples)).take limit).filter
        (fun p => decide (p.1 = s)) <+:
        (simsOf query examples).filter (fun p => decide (p.1 = s)) := by
      have hpre := List.take_prefix limit (sortDesc (simsOf query examples))
      have h2 := hpre.filter (fun p => decide (p.1 = s))
      rwa [sortDesc_filter] at h2
    have hstep3 : (simsOf query examples).filter (fun p => decide (p.1 = s)) =
        (examples.filter
          (fun e => decide (similarity_score query e.natural_language = s))).map
          (fun e => (similarity_score query e.natural_language, e)) := by
      unfold simsOf
      rw [List.filter_filter, List.filter_map]
      congr 1
      refine List.filter_congr ?_
      intro e he
      show (decide ((similarity_score query e.natural_language, e).1 = s) &&
        decide (1/10 < (similarity_score query e.natural_language, e).1)) =
        decide (similarity_score query e.natural_language = s)
      by_cases hes : similarity_score query e.natural_language = s
      · have hs2 : decide (1/10 < s) = true := decide_eq_true hs
        rw [hes, hs2]
        simp
      · simp [hes]
    have hstep4 : ((examples.filter
        (fun e => decide (similarity_score query e.natural_language = s))).map
          (fun e => (similarity_score query e.natural_language, e))).map
          (fun p => p.2) =
        examples.filter
          (fun e => decide (similarity_score query e.natural_language = s)) := by
      rw [List.map_map]
      have hid : ∀ e ∈ examples.filter
          (fun e => decide (similarity_score query e.natural_language = s)),
          ((fun p : ℚ × Example => p.2) ∘
            (fun e => (similarity_score query e.natural_language, e))) e = e :=
        fun e _ => rfl
      rw [List.map_congr_left hid]
      exact List.map_id _
    rw [hstep1]
    have hfin := hstep2.map (fun p => p.2)
    rw [hstep3] at hfin
    rwa [hstep4] at hfin

/-- C7 (witness): a store whose single example shares all words with the
query. -/
theorem C7_similar_examples_witness :
    (∀ e ∈ [(⟨chars "show me all users", chars "SELECT * FROM users",
        chars "basic_select", chars "easy"⟩ : Example)],
      similarityDen (lowerList (chars "show me all users"))
        (lowerList e.natural_language) ≠ 0) ∧
      (∃ r, get_similar_examples (chars "show me all users") 3
          [(⟨chars "show me all users", chars "SELECT * FROM users",
            chars "basic_select", chars "easy"⟩ : Example)] = some r ∧
        r.length = min 3
          ([(⟨chars "show me all users", chars "SELECT * FROM users",
            chars "basic_select", chars "easy"⟩ : Example)].countP
            (fun e => decide (1/10 < similarity_score (chars "show me all users")
              e.natural_language))) ∧
        (∀ e ∈ r, 1/10 < similarity_score (chars "show me all users")
          e.natural_language) ∧
        (r.map (fun e => similarity_score (chars "show me all users")
          e.natural_language)).Pairwise (fun a b => b ≤ a) ∧
        (∀ s : ℚ, 1/10 < s →
          r.filter (fun e => decide (similarity_score (chars "show me all users")
            e.natural_language = s)) <+:
            [(⟨chars "show me all users", chars "SELECT * FROM users",
              chars "basic_select", chars "easy"⟩ : Example)].filter
              (fun e => decide (similarity_score (chars "show me all users")
                e.natural_language = s)))) :=
  ⟨by decide, C7_similar_examples_spec (chars "show me all users") 3 _ (by decide)⟩

/-- The ten-fold repetition query used to separate the two denominators. -/
def c7query : List Char := chars "cat cat cat cat cat cat cat cat cat cat"

/-- A stored example whose text is the single word `cat`. -/
def c7ex : Example :=
  ⟨chars "cat", chars "SELECT * FROM cats", chars "basic_select", chars "easy"⟩

/-- C7 (counterexample): the code divides by the larger word-LIST length
(duplicates counted), not the larger word-SET size as claimed.  For the
query repeating `cat` ten times against the stored text `cat`, the
set-based score of the claim is 1 (kept), but the code computes 1/10,
which fails the strict threshold, so the example is dropped. -/
theorem C7_set_denominator_counterexample :
    get_similar_examples c7query 3 [c7ex] = some [] ∧
      1/10 < claimSimilarity c7query c7ex.natural_language := by
  have hden : similarityDen (lowerList c7query) (lowerList c7ex.natural_language) = 10 :=
    by decide
  have hcom : simCommon (lowerList c7query) (lowerList c7ex.natural_language) = 1 :=
    by decide
  have hscore : similarity_score c7query c7ex.natural_language = 1/10 := by
    unfold similarity_score
    rw [hden, hcom]
    norm_num
  have hth : ¬ (1/10 < similarity_score c7query c7ex.natural_language) := by
    rw [hscore]
    exact lt_irrefl _
  constructor
  · unfold get_similar_examples
    rw [buildSims_eq c7query [c7ex] (fun e he => by
      rw [List.mem_singleton.mp he, hden]
      decide)]
    have hsims : simsOf c7query [c7ex] = [] := by
      unfold simsOf
      simp only [List.map_cons, List.map_nil, List.filter_cons]
      rw [decide_eq_false hth]
      simp
    rw [hsims]
    rfl
  · have h1 : ((pySplit (lowerList c7query)).eraseDups).length = 1 := by decide
    have h2 : ((pySplit (lowerList c7ex.natural_language)).eraseDups).length = 1 :=
      by decide
    unfold claimSimilarity
    rw [hcom, h1, h2]
    norm_num

/-- C8 (counterexample): `validate_example` accepts a pair whose SQL
contains `SELECT` but not `FROM`: the source tests membership of ANY of the
two keywords, not both. -/
theorem C8_single_keyword_accepted :
    validate_example (chars "show one") (chars "SELECT 1") = true ∧
      hasSub (chars "FROM") (upperList (chars "SELECT 1")) = false := by decide

/-- C8 (amended): `validate_example` returns true exactly when both strings
are non-empty and the uppercased SQL contains at least one of the keywords
`SELECT` and `FROM` (one alone suffices). -/
theorem C8_validate_example_iff (natural_language sql : List Char) :
    validate_example natural_language sql = true ↔
      natural_language ≠ [] ∧ sql ≠ [] ∧
        ((chars "SELECT") <:+: upperList sql ∨ (chars "FROM") <:+: upperList sql) := by
  unfold validate_example
  by_cases h1 : natural_language = [] <;> by_cases h2 : sql = [] <;>
    simp [h1, h2, hasSub_iff]

/-- C8 (witness): the amended characterisation applied to a well-formed
example pair. -/
theorem C8_validate_example_witness :
    validate_example (chars "Show me all users") (chars "SELECT * FROM users") = true :=
  (C8_validate_example_iff (chars "Show me all users")
    (chars "SELECT * FROM users")).mpr
    ⟨by decide, by decide, Or.inl (hasSub_iff.mp (by decide))⟩

theorem buildSims_none (query : List Char) (examples : List Example)
    (hq : pySplit (lowerList query) = [])
    (h : ∃ e ∈ examples, pySplit (lowerList e.natural_language) = []) :
    buildSims query examples = none := by
  induction examples with
  | nil => simp at h
  | cons ex rest ih =>
    obtain ⟨e, he, hnl⟩ := h
    unfold buildSims
    split
    · rfl
    · next hne =>
      rcases List.mem_cons.mp he with rfl | he2
      · exact absurd (by unfold similarityDen; rw [hq, hnl]; rfl) hne
      · rw [ih ⟨e, he2, hnl⟩]

/-- C10: when the query splits into no words and some stored example's
`natural_language` also splits into no words (such an example can be stored,
since `add_example` appends without validation), the similarity denominator
is zero and `get_similar_examples` fails with a division by zero (modelled
as `none`) instead of returning a list. -/
theorem C10_similar_examples_div_zero (query : List Char) (limit : Nat)
    (examples : List Example)
    (hq : pySplit (lowerList query) = [])
    (h : ∃ e ∈ examples, pySplit (lowerList e.natural_language) = []) :
    get_similar_examples query limit examples = none := by
  unfold get_similar_examples
  rw [buildSims_none query examples hq h]

/-- C10 (witness): an all-whitespace example stored through `add_example`
makes an empty query crash the retriever. -/
theorem C10_div_zero_witness :
    pySplit (lowerList (chars "")) = [] ∧
      (∃ e ∈ add_example [] (chars " ") (chars "SELECT * FROM t")
          (chars "custom") (chars "medium"),
        pySplit (lowerList e.natural_language) = []) ∧
      get_similar_examples (chars "") 3
        (add_example [] (chars " ") (chars "SELECT * FROM t")
          (chars "custom") (chars "medium")) = none :=
  ⟨by decide, by decide,
    C10_similar_examples_div_zero (chars "") 3 _ (by decide) (by decide)⟩
